import Mathlib

/-!
Shallow embedding of the wrp-go validation core: the locator grammar
(`validateLocator` and its regular expression `locatorPattern`), the
message-type validator, the span validator, the telemetry-wrapped metric
validators, and the service/endpoint adapter, together with theorems
settling the specification claims.
-/

namespace Wrp

/-- ASCII lower-casing of a single character, modelling the case-insensitive
scheme match of the locator regular expression and `unicode.ToLower` applied
to ASCII hexadecimal digits. -/
def asciiLower (c : Char) : Char :=
  if 'A' ≤ c ∧ c ≤ 'Z' then Char.ofNat (c.toNat + 32) else c

/-- Scheme constant `mac`. The `macPrefix` constant is declared outside the
embedded source files; its value is fixed by the locator grammar of the
specification. -/
def macScheme : String := "mac"

/-- Scheme constant `uuid` (source constant `uuidPrefix`). -/
def uuidScheme : String := "uuid"

/-- Scheme constant `event` (source constant `eventPrefix`). -/
def eventScheme : String := "event"

/-- Scheme constant `dns` (source constant `dnsPrefix`). -/
def dnsScheme : String := "dns"

/-- Scheme constant `serial` (source constant `serialPrefix`). -/
def serialScheme : String := "serial"

/-- The five locator schemes in the order they appear in the alternation of
`locatorPattern`. -/
def schemes : List String := [macScheme, uuidScheme, eventScheme, dnsScheme, serialScheme]

/-- Modelled from the spec: the `hexDigits` constant (declared outside the
embedded files) listing the characters kept by the MAC authority filter:
"hexadecimal digits are lower-cased and kept". -/
def hexDigits : List Char := "0123456789abcdefABCDEF".data

/-- Modelled from the spec: the `macDelimiters` constant (declared outside the
embedded files): "a fixed set of delimiter characters (e.g. `:`, `-`, `.`)
are dropped". -/
def macDelimiters : List Char := ":-.".data

/-- Modelled from the spec: the `macLength` constant (declared outside the
embedded files): "the remaining hex-digit count must equal the fixed MAC
length (12)". -/
def macLength : Nat := 12

/-- The error outcomes of `validateLocator`, one constructor per package-level
sentinel error, carrying the contextual detail the source attaches. -/
inductive LocatorError where
  | invalidLocatorPattern : LocatorError
  | emptyAuthority : LocatorError
  | invalidMacLength : LocatorError
  | invalidCharacter : Char → LocatorError
  | invalidUUID : String → LocatorError
deriving DecidableEq, Repr

/-- One alternative of `locatorPattern`: try to match scheme `p`
case-insensitively at the start of `l`, followed by a literal `:`.
Returns the scheme text as it appeared and the remainder after the colon. -/
def stripSchemeColon (p : String) (l : List Char) : Option (List Char × List Char) :=
  if (l.drop p.data.length).headD ' ' = ':' ∧ (l.take p.data.length).map asciiLower = p.data then
    some (l.take p.data.length, (l.drop p.data.length).tail)
  else
    none

/-- Models `locatorPattern.FindStringSubmatch`: the pattern is anchored at the
start, the scheme alternation is case-insensitive, and the optional authority
group `[^/]+` captures the maximal (possibly empty) run of non-`/` characters
after the colon. Returns `(scheme text, authority)`. -/
def findStringSubmatch (l : List Char) : Option (List Char × List Char) :=
  let m :=
    match stripSchemeColon macScheme l with
    | some r => some r
    | none =>
      match stripSchemeColon uuidScheme l with
      | some r => some r
      | none =>
        match stripSchemeColon eventScheme l with
        | some r => some r
        | none =>
          match stripSchemeColon dnsScheme l with
          | some r => some r
          | none => stripSchemeColon serialScheme l
  match m with
  | some (s, rest) => some (s, rest.takeWhile (fun c => c != '/'))
  | none => none

/-- The `strings.Map` pass of the `mac` branch of `validateLocator`: walk the
authority, keep hexadecimal digits lower-cased, drop delimiter characters, and
remember the most recent character that was neither (the source's
`invalidCharacter` variable, overwritten at each offending character).
Returns `(last invalid character if any, filtered text)`. -/
def macFilter : List Char → Option Char × List Char
  | [] => (none, [])
  | r :: rest =>
    let p := macFilter rest
    if hexDigits.contains r then (p.1, asciiLower r :: p.2)
    else if macDelimiters.contains r then p
    else (some (p.1.getD r), p.2)

/-- `validateLocator` from the source, parameterized by the external
`uuid.Parse` collaborator (`uuidParse a = none` means the authority parsed as
a valid UUID, `some msg` is the parse error message). -/
def validateLocator (uuidParse : String → Option String) (l : String) : Option LocatorError :=
  match findStringSubmatch l.data with
  | none => some LocatorError.invalidLocatorPattern
  | some (scheme, idPart) =>
    if idPart.length = 0 then some LocatorError.emptyAuthority
    else if scheme.map asciiLower = macScheme.data then
      match macFilter idPart with
      | (some c, _) => some (LocatorError.invalidCharacter c)
      | (none, filtered) =>
        if filtered.length ≠ macLength then some LocatorError.invalidMacLength else none
    else if scheme.map asciiLower = uuidScheme.data then
      match uuidParse (String.mk idPart) with
      | some msg => some (LocatorError.invalidUUID msg)
      | none => none
    else none

/-- Spec-side predicate: `c` is one of the characters of `hexDigits`. -/
def isHexDigit (c : Char) : Bool := hexDigits.contains c

/-- Spec-side predicate: `c` is one of the delimiter characters. -/
def isMacDelim (c : Char) : Bool := macDelimiters.contains c

/-- Spec-side predicate: `c` is neither a hexadecimal digit nor a delimiter,
i.e. an invalid character for a MAC authority. -/
def isInvalidMacChar (c : Char) : Bool := !(isHexDigit c) && !(isMacDelim c)

/-- Modelled from the spec: the lower bound of the message-type enumeration,
the first of the "two invalid sentinels" (the enum constants are declared
outside the embedded files). -/
def Invalid0MessageType : Int := 0

/-- Modelled from the spec: the second "invalid" sentinel of the message-type
enumeration. -/
def Invalid1MessageType : Int := 1

/-- Modelled from the spec: the simple request/response message type, a
non-reserved member of the enumeration. -/
def SimpleRequestResponseMessageType : Int := 3

/-- Modelled from the spec: the simple event message type, a non-reserved
member of the enumeration. -/
def SimpleEventMessageType : Int := 4

/-- Modelled from the spec: the upper-bound sentinel of the message-type
enumeration. -/
def lastMessageType : Int := 12

/-- Modelled from the spec: the decoded WRP message, with the fields this
core inspects: `Type` (integer enum, named `type` here because `Type` is a
Lean keyword), `Source` and `Destination` (locator strings), and `Spans`
(a sequence of span records, each a sequence of strings). -/
structure Message where
  type : Int
  Source : String
  Destination : String
  Spans : List (List String)
deriving DecidableEq, Repr

/-- The error of `MessageTypeValidator` (sentinel `ErrorInvalidMessageType`). -/
inductive MessageTypeError where
  | invalidMessageType : MessageTypeError
deriving DecidableEq, Repr

/-- `MessageTypeValidator` from the source: the type must lie in the
enumerated range and must not be one of the reserved values
`Invalid0MessageType`, `Invalid1MessageType`, `lastMessageType`. -/
def MessageTypeValidator (m : Message) : Option MessageTypeError :=
  if m.type < Invalid0MessageType ∨ m.type > lastMessageType then
    some MessageTypeError.invalidMessageType
  else if m.type = Invalid0MessageType ∨ m.type = Invalid1MessageType ∨ m.type = lastMessageType then
    some MessageTypeError.invalidMessageType
  else none

/-- Models Go `strconv.Atoi`: an optional sign followed by at least one ASCII
decimal digit, with the value required to fit in a signed 64-bit integer;
any other input is a parse error (`none`). -/
def goAtoi (s : String) : Option Int :=
  let core : Bool × List Char :=
    match s.data with
    | '+' :: r => (false, r)
    | '-' :: r => (true, r)
    | r => (false, r)
  let neg := core.1
  let ds := core.2
  if ds = [] then none
  else if ds.all (fun c => '0' ≤ c && c ≤ '9') then
    let n : Nat := ds.foldl (fun a c => a * 10 + (c.toNat - 48)) 0
    let v : Int := if neg then -(n : Int) else (n : Int)
    if -(2 ^ 63) ≤ v ∧ v ≤ 2 ^ 63 - 1 then some v else none
  else none

/-- The error outcomes of the span validator: one constructor per sentinel,
with `invalidSpanFormat` carrying the span content, the field name, and the
offending value, as the source's wrapped error does. -/
inductive SpanError where
  | invalidSpanLength : SpanError
  | invalidSpanFormat : List String → String → String → SpanError
deriving DecidableEq, Repr

/-- The `spanFormat` map from the source, as an association list from position
to semantic field name. -/
def spanFormat : List (Nat × String) :=
  [(0, "parent"), (1, "name"), (2, "start time"), (3, "duration"), (4, "status")]

/-- The body of the inner loop of `SpansValidator`: the switch keyed by the
semantic field name `j` at position `i` of span `s`, yielding the violations
recorded for that position. -/
def checkSpanField (s : List String) (i : Nat) (j : String) : List SpanError :=
  if j = "parent" ∨ j = "name" then
    if (s.getD i "").length = 0 then [SpanError.invalidSpanFormat s j (s.getD i "")] else []
  else if j = "start time" ∨ j = "duration" ∨ j = "status" then
    match goAtoi (s.getD i "") with
    | none => [SpanError.invalidSpanFormat s j (s.getD i "")]
    | some _ => []
  else []

/-- `SpansValidator` from the source: for each span, append one
`invalidSpanLength` when the length is not that of `spanFormat`, otherwise
append the violations of every position; the accumulated list models the
`multierr` aggregate, with the empty list standing for a nil error. -/
def SpansValidator (m : Message) : List SpanError :=
  m.Spans.foldl
    (fun err s =>
      if s.length ≠ spanFormat.length then err ++ [SpanError.invalidSpanLength]
      else spanFormat.foldl (fun acc ij => acc ++ checkSpanField s ij.1 ij.2) err)
    []

/-- The errors of the message-category type validators (sentinels
`ErrorNotSimpleEventType` and `ErrorNotSimpleResponseRequestType`). -/
inductive CategoryError where
  | notSimpleEventType : CategoryError
  | notSimpleResponseRequestType : CategoryError
deriving DecidableEq, Repr

/-- `SimpleEventTypeValidator` from the source. -/
def SimpleEventTypeValidator (m : Message) : Option CategoryError :=
  if m.type ≠ SimpleEventMessageType then some CategoryError.notSimpleEventType else none

/-- `SimpleResponseRequestTypeValidator` from the source. -/
def SimpleResponseRequestTypeValidator (m : Message) : Option CategoryError :=
  if m.type ≠ SimpleRequestResponseMessageType then
    some CategoryError.notSimpleResponseRequestType
  else none

/-- Modelled from the spec: a Prometheus label set (`prometheus.Labels` is a
map from label name to label value). -/
abbrev Labels := List (String × String)

/-- Modelled from the spec: the counter sink, a mapping from label sets to
counts, and `m.With(ls).Add(1.0)`, which increments the count of exactly the
supplied label set by one. -/
def incrCounter (ctr : Labels → Nat) (ls : Labels) : Labels → Nat :=
  fun y => if y = ls then ctr y + 1 else ctr y

/-- The closure returned by `NewSpansValidator`: run `SpansValidator`; if the
result is an error, increment the failure counter at the supplied labels;
return the result. The counter state is passed explicitly. -/
def NewSpansValidatorFn (msg : Message) (ls : Labels) (ctr : Labels → Nat) :
    List SpanError × (Labels → Nat) :=
  let err := SpansValidator msg
  if err ≠ [] then (err, incrCounter ctr ls) else (err, ctr)

/-- The closure returned by `NewSimpleEventTypeValidator`: run
`SimpleEventTypeValidator`; on error increment the counter; return the
result. -/
def NewSimpleEventTypeValidatorFn (msg : Message) (ls : Labels) (ctr : Labels → Nat) :
    Option CategoryError × (Labels → Nat) :=
  let err := SimpleEventTypeValidator msg
  if err.isSome then (err, incrCounter ctr ls) else (err, ctr)

/-- The closure returned by `NewSimpleResponseRequestTypeValidator`: run
`SimpleResponseRequestTypeValidator`; on error increment the counter; return
the result. -/
def NewSimpleResponseRequestTypeValidatorFn (msg : Message) (ls : Labels) (ctr : Labels → Nat) :
    Option CategoryError × (Labels → Nat) :=
  let err := SimpleResponseRequestTypeValidator msg
  if err.isSome then (err, incrCounter ctr ls) else (err, ctr)

/-- Modelled from the spec: the generic value carried across the
`Endpoint` boundary — either a request or a response (the Go code uses
`interface\x7b\x7d` with type assertions at the boundary). -/
inductive WrpVal (Req Resp : Type) where
  | req : Req → WrpVal Req Resp
  | resp : Resp → WrpVal Req Resp
deriving DecidableEq

/-- Modelled from the spec: a `Service` processes a context and a request into
a response and an optional error; side effects are modelled by explicit state
passing of type `σ`. -/
def Service (σ Ctx Req Resp ε : Type) : Type :=
  Ctx → Req → σ → σ × Resp × Option ε

/-- Modelled from the spec: an `Endpoint` is the generically-typed callable;
`none` as the overall outcome models the undefined behavior (a type-assertion
panic) when a value of the wrong kind crosses the boundary. -/
def Endpoint (σ Ctx Req Resp ε : Type) : Type :=
  Ctx → WrpVal Req Resp → σ → Option (σ × WrpVal Req Resp × Option ε)

/-- Modelled from the spec: `New(service)` returns an endpoint that asserts
the generic value to the service's `Request` type, invokes the service once,
and returns its response and error as the generic result. -/
def New (s : Service σ Ctx Req Resp ε) : Endpoint σ Ctx Req Resp ε :=
  fun ctx v st =>
    match v with
    | WrpVal.req r =>
      let o := s ctx r st
      some (o.1, WrpVal.resp o.2.1, o.2.2)
    | WrpVal.resp _ => none

/-- Modelled from the spec: `Wrap(endpoint)` returns a service whose
`ServeWRP` forwards the context and request to the endpoint and performs the
inverse type assertion on the returned value. -/
def Wrap (e : Endpoint σ Ctx Req Resp ε) : Ctx → Req → σ → Option (σ × Resp × Option ε) :=
  fun ctx r st =>
    match e ctx (WrpVal.req r) st with
    | some (st2, WrpVal.resp rsp, err) => some (st2, rsp, err)
    | _ => none

/-- A service instrumented to record every invocation it receives, used to
observe that the round-tripped service is invoked exactly once with the
caller's context and request. -/
def traceService (f : Ctx → Req → Resp × Option ε) :
    Service (List (Ctx × Req)) Ctx Req Resp ε :=
  fun ctx r st => (st ++ [(ctx, r)], f ctx r)

/-- Spec-side: the semantic field name of each span position. -/
def spanFieldName (i : Nat) : String :=
  match i with
  | 0 => "parent"
  | 1 => "name"
  | 2 => "start time"
  | 3 => "duration"
  | _ => "status"

/-- Spec-side: position `i` of span `s` satisfies its rule — positions 0 and 1
must be non-empty, positions 2, 3 and 4 must parse as integers. -/
def specFieldOK (s : List String) (i : Nat) : Bool :=
  if i ≤ 1 then !((s.getD i "") == "") else (goAtoi (s.getD i "")).isSome

/-- Spec-side: the violations the claim prescribes for one span — exactly one
length error for a span whose length is not 5, otherwise one format violation,
annotated with the span, the field name and the offending value, for each
position that breaks its rule. -/
def specSpanErrs (s : List String) : List SpanError :=
  if s.length ≠ 5 then [SpanError.invalidSpanLength]
  else
    (List.range 5).flatMap fun i =>
      if specFieldOK s i then []
      else [SpanError.invalidSpanFormat s (spanFieldName i) (s.getD i "")]

/-- A string has length zero exactly when it is empty. -/
lemma string_length_eq_zero (s : String) : s.length = 0 ↔ s = "" := by
  constructor
  · intro h
    cases s with
    | mk d =>
      cases d with
      | nil => rfl
      | cons a t => simp [String.length] at h
  · intro h
    subst h
    rfl

/-- The switch body of the span loop agrees, position by position, with the
declarative per-position rule of the specification. -/
lemma checkSpanField_eq_spec (s : List String) (i : Nat) (hi : i < 5) :
    checkSpanField s i (spanFieldName i) =
      if specFieldOK s i then []
      else [SpanError.invalidSpanFormat s (spanFieldName i) (s.getD i "")] := by
  interval_cases i <;>
    simp only [checkSpanField, spanFieldName, specFieldOK] <;>
    [(by_cases h : s.getD 0 "" = ""); (by_cases h : s.getD 1 "" = "");
      (cases h : goAtoi (s.getD 2 "")); (cases h : goAtoi (s.getD 3 ""));
      (cases h : goAtoi (s.getD 4 ""))] <;>
    simp_all [string_length_eq_zero, beq_iff_eq]

/-- One step of the outer span loop appends exactly the declarative violation
list of that span to the accumulated error. -/
lemma spansValidator_step (err : List SpanError) (s : List String) :
    (if s.length ≠ spanFormat.length then err ++ [SpanError.invalidSpanLength]
     else spanFormat.foldl (fun acc ij => acc ++ checkSpanField s ij.1 ij.2) err) =
      err ++ specSpanErrs s := by
  by_cases hlen : s.length = 5
  · have e0 : checkSpanField s 0 "parent" =
        if specFieldOK s 0 then [] else [SpanError.invalidSpanFormat s "parent" (s.getD 0 "")] := by
      simpa [spanFieldName] using checkSpanField_eq_spec s 0 (by omega)
    have e1 : checkSpanField s 1 "name" =
        if specFieldOK s 1 then [] else [SpanError.invalidSpanFormat s "name" (s.getD 1 "")] := by
      simpa [spanFieldName] using checkSpanField_eq_spec s 1 (by omega)
    have e2 : checkSpanField s 2 "start time" =
        if specFieldOK s 2 then []
        else [SpanError.invalidSpanFormat s "start time" (s.getD 2 "")] := by
      simpa [spanFieldName] using checkSpanField_eq_spec s 2 (by omega)
    have e3 : checkSpanField s 3 "duration" =
        if specFieldOK s 3 then []
        else [SpanError.invalidSpanFormat s "duration" (s.getD 3 "")] := by
      simpa [spanFieldName] using checkSpanField_eq_spec s 3 (by omega)
    have e4 : checkSpanField s 4 "status" =
        if specFieldOK s 4 then [] else [SpanError.invalidSpanFormat s "status" (s.getD 4 "")] := by
      simpa [spanFieldName] using checkSpanField_eq_spec s 4 (by omega)
    rw [if_neg (by simp [spanFormat, hlen])]
    unfold specSpanErrs
    rw [if_neg (by simp [hlen])]
    simp only [spanFormat, List.foldl_cons, List.foldl_nil,
      show List.range 5 = [0, 1, 2, 3, 4] from rfl, List.flatMap_cons, List.flatMap_nil,
      spanFieldName]
    rw [e0, e1, e2, e3, e4]
    simp [List.append_assoc]
  · unfold specSpanErrs
    rw [if_pos (by simp [spanFormat, hlen]), if_pos (by simp [hlen])]

/-- The accumulating outer loop of `SpansValidator` is the concatenation of
the per-span violation lists. -/
lemma spansValidator_foldl (spans : List (List String)) (init : List SpanError) :
    spans.foldl
        (fun err s =>
          if s.length ≠ spanFormat.length then err ++ [SpanError.invalidSpanLength]
          else spanFormat.foldl (fun acc ij => acc ++ checkSpanField s ij.1 ij.2) err)
        init =
      init ++ spans.flatMap specSpanErrs := by
  induction spans generalizing init with
  | nil => simp
  | cons s rest ih =>
    rw [List.foldl_cons, List.flatMap_cons]
    show List.foldl _
        (if s.length ≠ spanFormat.length then init ++ [SpanError.invalidSpanLength]
         else spanFormat.foldl (fun acc ij => acc ++ checkSpanField s ij.1 ij.2) init) rest = _
    rw [spansValidator_step, ih, List.append_assoc]

/-- The declarative violation list of one span is empty exactly when the span
has length 5 and every position satisfies its rule. -/
lemma specSpanErrs_eq_nil (s : List String) :
    specSpanErrs s = [] ↔ s.length = 5 ∧ ∀ i, i < 5 → specFieldOK s i := by
  by_cases hlen : s.length = 5
  · unfold specSpanErrs
    rw [if_neg (by simp [hlen])]
    simp only [show List.range 5 = [0, 1, 2, 3, 4] from rfl, List.flatMap_cons,
      List.flatMap_nil, List.append_nil]
    constructor
    · intro h
      have h0 : specFieldOK s 0 := by by_contra hb; simp [hb] at h
      have h1 : specFieldOK s 1 := by by_contra hb; simp [hb] at h
      have h2 : specFieldOK s 2 := by by_contra hb; simp [hb] at h
      have h3 : specFieldOK s 3 := by by_contra hb; simp [hb] at h
      have h4 : specFieldOK s 4 := by by_contra hb; simp [hb] at h
      refine ⟨hlen, fun i hi => ?_⟩
      interval_cases i <;> assumption
    · rintro ⟨-, h⟩
      simp [h 0 (by omega), h 1 (by omega), h 2 (by omega), h 3 (by omega), h 4 (by omega)]
  · unfold specSpanErrs
    rw [if_pos (by simp [hlen])]
    simp [hlen]

/-- Claim C2: `SpansValidator` inspects every span without short-circuiting:
a span of length other than 5 contributes exactly one `InvalidSpanLength`
violation and no field-level check, a span of length 5 contributes one
`InvalidSpanFormat` violation (annotated with the span, field name and
offending value) per position breaking its rule — positions 0 and 1 non-empty,
positions 2, 3, 4 integer-parseable — all violations are aggregated into one
combined error, and the result is nil exactly when no violation occurred. -/
theorem spansValidator_aggregates (m : Message) :
    SpansValidator m = m.Spans.flatMap specSpanErrs ∧
      (SpansValidator m = [] ↔ ∀ s ∈ m.Spans, s.length = 5 ∧ ∀ i, i < 5 → specFieldOK s i) := by
  have hmain : SpansValidator m = m.Spans.flatMap specSpanErrs := by
    unfold SpansValidator
    simpa using spansValidator_foldl m.Spans []
  refine ⟨hmain, ?_⟩
  rw [hmain, List.flatMap_eq_nil_iff]
  constructor
  · intro h s hs
    exact (specSpanErrs_eq_nil s).mp (h s hs)
  · intro h s hs
    exact (specSpanErrs_eq_nil s).mpr (h s hs)

/-- Witness for claim C2: a message with one well-formed span validates to
nil. -/
theorem spansValidator_aggregates_witness :
    SpansValidator ⟨4, "", "", [["root", "op", "100", "50", "0"]]⟩ = [] := by
  exact (spansValidator_aggregates ⟨4, "", "", [["root", "op", "100", "50", "0"]]⟩).2.mpr
    (by decide)

/-- Claim C3: `MessageTypeValidator` returns nil exactly when the type lies in
the enumerated range and is none of the reserved boundary values (the two
invalid sentinels and the upper-bound sentinel); otherwise it returns the
`InvalidMessageType` error. -/
theorem messageTypeValidator_range (m : Message) :
    (MessageTypeValidator m = none ↔
      (Invalid0MessageType ≤ m.type ∧ m.type ≤ lastMessageType ∧
        m.type ≠ Invalid0MessageType ∧ m.type ≠ Invalid1MessageType ∧
        m.type ≠ lastMessageType)) ∧
      (MessageTypeValidator m = none ∨
        MessageTypeValidator m = some MessageTypeError.invalidMessageType) := by
  unfold MessageTypeValidator
  unfold Invalid0MessageType Invalid1MessageType lastMessageType
  constructor
  · split
    · next h => simp only [reduceCtorEq, false_iff]; omega
    · split
      · next h => simp only [reduceCtorEq, false_iff]; omega
      · next h h2 =>
        simp only [true_iff]
        omega
  · split
    · exact Or.inr rfl
    · split
      · exact Or.inr rfl
      · exact Or.inl rfl

/-- Witness for claim C3: the simple event message type, an interior member
of the enumeration, is accepted. -/
theorem messageTypeValidator_range_witness :
    MessageTypeValidator ⟨4, "", "", []⟩ = none := by
  exact (messageTypeValidator_range ⟨4, "", "", []⟩).1.mpr (by decide)

/-- Claim C4: `validateLocator` reports `InvalidLocatorPattern` whenever the
string does not match the locator grammar, and `EmptyAuthority` whenever it
matches the grammar with an empty authority — in that order, before any
scheme-specific validation (neither outcome depends on the scheme or on the
authority's content). -/
theorem validateLocator_grammar_first (uuidParse : String → Option String) (l : String) :
    (findStringSubmatch l.data = none →
        validateLocator uuidParse l = some LocatorError.invalidLocatorPattern) ∧
      ∀ sch, findStringSubmatch l.data = some (sch, []) →
        validateLocator uuidParse l = some LocatorError.emptyAuthority := by
  constructor
  · intro h
    unfold validateLocator
    rw [h]
  · intro sch h
    unfold validateLocator
    rw [h]
    rfl

/-- Witness for claim C4 at the concrete inputs `"bogus"` (grammar mismatch)
and `"mac:"` (empty authority). -/
theorem validateLocator_grammar_first_witness :
    validateLocator (fun _ => none) "bogus" = some LocatorError.invalidLocatorPattern ∧
      validateLocator (fun _ => none) "mac:" = some LocatorError.emptyAuthority := by
  exact ⟨(validateLocator_grammar_first (fun _ => none) "bogus").1 rfl,
    (validateLocator_grammar_first (fun _ => none) "mac:").2 "mac".data rfl⟩

/-- Claim C5: with a non-empty authority, scheme `uuid` (case-insensitive)
passes exactly when the authority parses as a UUID and otherwise fails with
`InvalidUUID` carrying the parse error, while schemes `serial`, `event` and
`dns` pass with no further validation. -/
theorem validateLocator_uuid_passthrough (uuidParse : String → Option String) (l : String)
    (sch auth : List Char) (hm : findStringSubmatch l.data = some (sch, auth))
    (hne : auth ≠ []) :
    (sch.map asciiLower = uuidScheme.data →
        ((validateLocator uuidParse l = none ↔ uuidParse (String.mk auth) = none) ∧
          ∀ e, uuidParse (String.mk auth) = some e →
            validateLocator uuidParse l = some (LocatorError.invalidUUID e))) ∧
      ((sch.map asciiLower = serialScheme.data ∨ sch.map asciiLower = eventScheme.data ∨
            sch.map asciiLower = dnsScheme.data) →
        validateLocator uuidParse l = none) := by
  have hlen : auth.length ≠ 0 := by
    intro h
    exact hne (List.length_eq_zero.mp h)
  constructor
  · intro hsch
    have hnotmac : sch.map asciiLower ≠ macScheme.data := by
      rw [hsch]; decide
    have hbase : validateLocator uuidParse l =
        match uuidParse (String.mk auth) with
        | some msg => some (LocatorError.invalidUUID msg)
        | none => none := by
      unfold validateLocator
      rw [hm]
      show (if auth.length = 0 then _ else _) = _
      rw [if_neg hlen, if_neg hnotmac, if_pos hsch]
    refine ⟨?_, ?_⟩
    · rw [hbase]
      cases h : uuidParse (String.mk auth) <;> simp [h]
    · intro e he
      rw [hbase, he]
  · intro hsch
    have hnotmac : sch.map asciiLower ≠ macScheme.data := by
      rcases hsch with h | h | h <;> rw [h] <;> decide
    have hnotuuid : sch.map asciiLower ≠ uuidScheme.data := by
      rcases hsch with h | h | h <;> rw [h] <;> decide
    unfold validateLocator
    rw [hm]
    show (if auth.length = 0 then _ else _) = _
    rw [if_neg hlen, if_neg hnotmac, if_neg hnotuuid]

/-- Witness for claim C5 at the concrete locators `"uuid:abc"` (with a parser
rejecting the authority) and `"dns:example.com"`. -/
theorem validateLocator_uuid_passthrough_witness :
    validateLocator (fun _ => some "invalid UUID length: 3") "uuid:abc" =
        some (LocatorError.invalidUUID "invalid UUID length: 3") ∧
      validateLocator (fun _ => none) "dns:example.com" = none := by
  refine ⟨?_, ?_⟩
  · exact ((validateLocator_uuid_passthrough (fun _ => some "invalid UUID length: 3")
      "uuid:abc" "uuid".data "abc".data rfl (by decide)).1 (by decide)).2
      "invalid UUID length: 3" rfl
  · exact (validateLocator_uuid_passthrough (fun _ => none) "dns:example.com"
      "dns".data "example.com".data rfl (by decide)).2 (Or.inr (Or.inr (by decide)))

/-- Claim C6: each metric-variant validator returns exactly the error of the
plain validator it wraps, increments the failure counter at the supplied label
set by exactly one when that result is an error, and leaves the whole counter
untouched when the result is nil (counts at other label sets never change). -/
theorem metric_validators_wrap (msg : Message) (ls : Labels) (ctr : Labels → Nat) :
    ((NewSpansValidatorFn msg ls ctr).1 = SpansValidator msg ∧
      (NewSpansValidatorFn msg ls ctr).2 ls =
        ctr ls + (if (SpansValidator msg).isEmpty then 0 else 1) ∧
      ∀ y, y ≠ ls → (NewSpansValidatorFn msg ls ctr).2 y = ctr y) ∧
    ((NewSimpleEventTypeValidatorFn msg ls ctr).1 = SimpleEventTypeValidator msg ∧
      (NewSimpleEventTypeValidatorFn msg ls ctr).2 ls =
        ctr ls + (if (SimpleEventTypeValidator msg).isSome then 1 else 0) ∧
      ∀ y, y ≠ ls → (NewSimpleEventTypeValidatorFn msg ls ctr).2 y = ctr y) ∧
    ((NewSimpleResponseRequestTypeValidatorFn msg ls ctr).1 =
        SimpleResponseRequestTypeValidator msg ∧
      (NewSimpleResponseRequestTypeValidatorFn msg ls ctr).2 ls =
        ctr ls + (if (SimpleResponseRequestTypeValidator msg).isSome then 1 else 0) ∧
      ∀ y, y ≠ ls → (NewSimpleResponseRequestTypeValidatorFn msg ls ctr).2 y = ctr y) := by
  refine ⟨⟨?_, ?_, ?_⟩, ⟨?_, ?_, ?_⟩, ⟨?_, ?_, ?_⟩⟩ <;>
    simp only [NewSpansValidatorFn, NewSimpleEventTypeValidatorFn,
      NewSimpleResponseRequestTypeValidatorFn]
  · split <;> rfl
  · cases h : SpansValidator msg <;> simp [h, incrCounter]
  · intro y hy
    split <;> simp [incrCounter, hy]
  · split <;> rfl
  · cases h : SimpleEventTypeValidator msg <;> simp [h, incrCounter]
  · intro y hy
    split <;> simp [incrCounter, hy]
  · split <;> rfl
  · cases h : SimpleResponseRequestTypeValidator msg <;> simp [h, incrCounter]
  · intro y hy
    split <;> simp [incrCounter, hy]

/-- Witness for claim C6: a message with a malformed span increments the
counter at the supplied labels to 1 and leaves an unrelated label set at 0. -/
theorem metric_validators_wrap_witness :
    (NewSpansValidatorFn ⟨0, "", "", [["x"]]⟩ [("l", "v")] (fun _ => 0)).2 [("l", "v")] = 1 ∧
      (NewSpansValidatorFn ⟨0, "", "", [["x"]]⟩ [("l", "v")] (fun _ => 0)).2 [] = 0 := by
  have h := metric_validators_wrap ⟨0, "", "", [["x"]]⟩ [("l", "v")] (fun _ => 0)
  refine ⟨?_, h.1.2.2 [] (by decide)⟩
  rw [h.1.2.1]
  decide

/-- Claim C7: the round trip `Wrap(New(s))` behaves identically to `s`: for
every context, request and starting state it produces the same response, the
same error and the same side effects, succeeding at both type-assertion
boundaries; instrumenting the service shows it is invoked exactly once and
receives the caller's context and request unchanged. -/
theorem wrap_new_roundtrip {σ Ctx Req Resp ε : Type} (s : Service σ Ctx Req Resp ε)
    (ctx : Ctx) (r : Req) (st : σ) :
    Wrap (New s) ctx r st = some (s ctx r st) ∧
      ∀ (f : Ctx → Req → Resp × Option ε) (log : List (Ctx × Req)),
        Wrap (New (traceService f)) ctx r log =
          some (log ++ [(ctx, r)], (f ctx r).1, (f ctx r).2) := by
  exact ⟨rfl, fun f log => rfl⟩

/-- Witness for claim C7 at concrete types and values: the round-tripped
service records exactly one invocation, carrying the given context and
request, and returns the underlying function's response and error. -/
theorem wrap_new_roundtrip_witness :
    Wrap (New (traceService (fun (c : Nat) (r : Nat) => (c + r, (none : Option String)))))
        3 4 [] = some ([(3, 4)], 7, none) := by
  exact (wrap_new_roundtrip (traceService fun c r => (c + r, none)) 3 4 []).2
    (fun c r => (c + r, none)) []

/-- The last element of a non-empty list, expressed through the head and the
last element of the tail. -/
lemma getLast?_cons_getD {α : Type} (a : α) (l : List α) :
    (a :: l).getLast? = some (l.getLast?.getD a) := by
  induction l generalizing a with
  | nil => rfl
  | cons b t ih =>
    rw [List.getLast?_cons_cons, ih b]
    rfl

/-- The single `strings.Map` pass of the `mac` branch computes the last
invalid character of the authority and the lower-cased subsequence of its
hexadecimal digits. -/
lemma macFilter_eq (l : List Char) :
    macFilter l =
      ((l.filter isInvalidMacChar).getLast?, (l.filter isHexDigit).map asciiLower) := by
  induction l with
  | nil => rfl
  | cons r rest ih =>
    by_cases hhex : hexDigits.contains r
    · have h1 : isHexDigit r = true := hhex
      have h2 : isInvalidMacChar r = false := by simp [isInvalidMacChar, h1]
      simp only [macFilter, if_pos hhex, ih, List.filter_cons, h1, h2, if_true, if_false,
        Bool.false_eq_true, List.map_cons]
    · have h1 : isHexDigit r = false := eq_false_of_ne_true hhex
      by_cases hdel : macDelimiters.contains r
      · have hd : isMacDelim r = true := hdel
        have h2 : isInvalidMacChar r = false := by
          simp [isInvalidMacChar, hd]
        simp only [macFilter, if_neg hhex, if_pos hdel, ih, List.filter_cons, h1, h2,
          Bool.false_eq_true, if_false]
      · have hd : isMacDelim r = false := eq_false_of_ne_true hdel
        have h2 : isInvalidMacChar r = true := by
          simp [isInvalidMacChar, h1, hd]
        simp only [macFilter, if_neg hhex, if_neg hdel, ih, List.filter_cons, h1, h2,
          Bool.false_eq_true, if_false, if_true]
        rw [getLast?_cons_getD]

/-- The `mac` branch of `validateLocator`, characterized declaratively: if the
authority contains an invalid character the result reports the last one;
otherwise the result is nil exactly when the kept hex digits number
`macLength`. Shared by the claims about MAC locators. -/
lemma validateLocator_mac_spec (uuidParse : String → Option String) (l : String)
    (sch auth : List Char) (hm : findStringSubmatch l.data = some (sch, auth))
    (hmac : sch.map asciiLower = macScheme.data) (hne : auth ≠ []) :
    validateLocator uuidParse l =
      match (auth.filter isInvalidMacChar).getLast? with
      | some c => some (LocatorError.invalidCharacter c)
      | none =>
        if (auth.filter isHexDigit).length ≠ macLength then some LocatorError.invalidMacLength
        else none := by
  have hlen : auth.length ≠ 0 := by
    intro h
    exact hne (List.length_eq_zero.mp h)
  unfold validateLocator
  rw [hm]
  show (if auth.length = 0 then _ else _) = _
  rw [if_neg hlen, if_pos hmac, macFilter_eq]
  cases h : (auth.filter isInvalidMacChar).getLast? with
  | some c => rfl
  | none =>
    show (if (List.map asciiLower (auth.filter isHexDigit)).length ≠ macLength then _ else _) = _
    rw [List.length_map]

/-- Claim C1: for a `mac` locator (scheme case-insensitive, non-empty
authority), the authority is filtered — hex digits kept and lower-cased,
delimiters dropped, any other character leading to `InvalidCharacter` with the
offending character; with no invalid character, the kept hex-digit count must
equal 12, otherwise `InvalidMacLength`; with exactly 12 the result is nil. -/
theorem validateLocator_mac_filters (uuidParse : String → Option String) (l : String)
    (sch auth : List Char) (hm : findStringSubmatch l.data = some (sch, auth))
    (hmac : sch.map asciiLower = macScheme.data) (hne : auth ≠ []) :
    (validateLocator uuidParse l =
      match (auth.filter isInvalidMacChar).getLast? with
      | some c => some (LocatorError.invalidCharacter c)
      | none =>
        if (auth.filter isHexDigit).length ≠ macLength then some LocatorError.invalidMacLength
        else none) ∧
      (validateLocator uuidParse l = none ↔
        (∀ c ∈ auth, isHexDigit c ∨ isMacDelim c) ∧
          (auth.filter isHexDigit).length = macLength) := by
  have hbase := validateLocator_mac_spec uuidParse l sch auth hm hmac hne
  refine ⟨hbase, ?_⟩
  rw [hbase]
  cases h : (auth.filter isInvalidMacChar).getLast? with
  | some c =>
    simp only [reduceCtorEq, false_iff]
    rintro ⟨hall, -⟩
    have hnil : auth.filter isInvalidMacChar = [] := by
      rw [List.filter_eq_nil_iff]
      intro c2 hc2
      rcases hall c2 hc2 with hx | hx
      · simp [isInvalidMacChar, hx]
      · simp [isInvalidMacChar, hx]
    rw [hnil] at h
    cases h
  | none =>
    have hall : ∀ c ∈ auth, isHexDigit c ∨ isMacDelim c := by
      intro c hc
      by_contra hcon
      push_neg at hcon
      have hinv : isInvalidMacChar c = true := by
        simp only [isInvalidMacChar, Bool.and_eq_true, Bool.not_eq_true']
        exact ⟨eq_false_of_ne_true hcon.1, eq_false_of_ne_true hcon.2⟩
      have hmem : c ∈ auth.filter isInvalidMacChar := List.mem_filter.mpr ⟨hc, hinv⟩
      rw [List.getLast?_eq_none_iff.mp h] at hmem
      cases hmem
    by_cases hcount : (auth.filter isHexDigit).length = macLength
    · rw [if_neg (by simp [hcount])]
      exact ⟨fun _ => ⟨hall, hcount⟩, fun _ => rfl⟩
    · rw [if_pos hcount]
      constructor
      · intro hsome
        cases hsome
      · intro hand
        exact absurd hand.2 hcount

/-- Witness for claim C1 at the concrete locator `"mac:11:22:33:44:55:66"`,
whose filtered authority has exactly 12 hex digits. -/
theorem validateLocator_mac_filters_witness :
    validateLocator (fun _ => none) "mac:11:22:33:44:55:66" = none := by
  exact (validateLocator_mac_filters (fun _ => none) "mac:11:22:33:44:55:66"
      "mac".data "11:22:33:44:55:66".data rfl (by decide) (by decide)).2.mpr
    (by decide)

/-- Claim C10: for a `mac` locator whose authority contains an invalid
character, `validateLocator` reports `InvalidCharacter` with the last such
character, regardless of the filtered hex-digit count (the invalid-character
check takes precedence over the length check). -/
theorem validateLocator_invalid_char_precedence (uuidParse : String → Option String)
    (l : String) (sch auth : List Char) (c : Char)
    (hm : findStringSubmatch l.data = some (sch, auth))
    (hmac : sch.map asciiLower = macScheme.data) (hne : auth ≠ [])
    (hlast : (auth.filter isInvalidMacChar).getLast? = some c) :
    validateLocator uuidParse l = some (LocatorError.invalidCharacter c) := by
  rw [validateLocator_mac_spec uuidParse l sch auth hm hmac hne, hlast]

/-- Witness for claim C10 at the concrete locator `"mac:1z2x3"`: two invalid
characters and a hex-digit count of 3, yet the result is `InvalidCharacter`
reporting `x`, the later of the two. -/
theorem validateLocator_invalid_char_precedence_witness :
    validateLocator (fun _ => none) "mac:1z2x3" =
      some (LocatorError.invalidCharacter 'x') := by
  exact validateLocator_invalid_char_precedence (fun _ => none) "mac:1z2x3"
    "mac".data "1z2x3".data 'x' rfl (by decide) (by decide) (by decide)

/-- A scheme alternative succeeds on a string built from a case-variant of
that scheme, a colon, and a remainder. -/
lemma stripSchemeColon_self (p : String) (sch rest : List Char)
    (h : sch.map asciiLower = p.data) :
    stripSchemeColon p (sch ++ ':' :: rest) = some (sch, rest) := by
  have hlen : p.data.length = sch.length := by
    rw [← h, List.length_map]
  unfold stripSchemeColon
  rw [hlen, List.drop_left, List.take_left]
  simp [h]

/-- A scheme alternative fails when the character after the candidate scheme
is not a colon. -/
lemma stripSchemeColon_none_of_head (p : String) (l : List Char)
    (h : (l.drop p.data.length).headD ' ' ≠ ':') : stripSchemeColon p l = none := by
  unfold stripSchemeColon
  rw [if_neg]
  intro hc
  exact h hc.1

/-- A scheme alternative fails when the candidate text does not lower-case to
the scheme. -/
lemma stripSchemeColon_none_of_take (p : String) (l : List Char)
    (h : (l.take p.data.length).map asciiLower ≠ p.data) : stripSchemeColon p l = none := by
  unfold stripSchemeColon
  rw [if_neg]
  intro hc
  exact h hc.2

/-- The locator pattern, applied to a string built from a case-variant of any
of the five schemes, a colon, and a remainder, matches with that scheme text
and captures as authority the maximal run of non-slash characters. -/
lemma findStringSubmatch_append (p : String) (hp : p ∈ schemes) (sch rest : List Char)
    (h : sch.map asciiLower = p.data) :
    findStringSubmatch (sch ++ ':' :: rest) =
      some (sch, rest.takeWhile (fun c => c != '/')) := by
  have hself := stripSchemeColon_self p sch rest h
  simp only [schemes, List.mem_cons, List.not_mem_nil, or_false] at hp
  rcases hp with rfl | rfl | rfl | rfl | rfl
  · -- p = macScheme
    unfold findStringSubmatch
    rw [hself]
  · -- p = uuidScheme
    rw [show uuidScheme.data = ['u', 'u', 'i', 'd'] from rfl] at h
    cases sch with
    | nil => simp at h
    | cons c0 s0 =>
    cases s0 with
    | nil => simp at h
    | cons c1 s1 =>
    cases s1 with
    | nil => simp at h
    | cons c2 s2 =>
    cases s2 with
    | nil => simp at h
    | cons c3 s3 =>
    cases s3 with
    | cons c4 s4 => simp at h
    | nil =>
      simp only [List.map_cons, List.map_nil, List.cons.injEq, and_true] at h
      obtain ⟨h0, h1, h2, h3⟩ := h
      have hmac : stripSchemeColon macScheme ([c0, c1, c2, c3] ++ ':' :: rest) = none := by
        apply stripSchemeColon_none_of_head
        show c3 ≠ ':'
        intro hc
        rw [hc] at h3
        exact absurd h3 (by decide)
      unfold findStringSubmatch
      rw [hmac, hself]
  · -- p = eventScheme
    rw [show eventScheme.data = ['e', 'v', 'e', 'n', 't'] from rfl] at h
    cases sch with
    | nil => simp at h
    | cons c0 s0 =>
    cases s0 with
    | nil => simp at h
    | cons c1 s1 =>
    cases s1 with
    | nil => simp at h
    | cons c2 s2 =>
    cases s2 with
    | nil => simp at h
    | cons c3 s3 =>
    cases s3 with
    | nil => simp at h
    | cons c4 s4 =>
    cases s4 with
    | cons c5 s5 => simp at h
    | nil =>
      simp only [List.map_cons, List.map_nil, List.cons.injEq, and_true] at h
      obtain ⟨h0, h1, h2, h3, h4⟩ := h
      have hmac : stripSchemeColon macScheme ([c0, c1, c2, c3, c4] ++ ':' :: rest) = none := by
        apply stripSchemeColon_none_of_head
        show c3 ≠ ':'
        intro hc
        rw [hc] at h3
        exact absurd h3 (by decide)
      have huuid : stripSchemeColon uuidScheme ([c0, c1, c2, c3, c4] ++ ':' :: rest) = none := by
        apply stripSchemeColon_none_of_head
        show c4 ≠ ':'
        intro hc
        rw [hc] at h4
        exact absurd h4 (by decide)
      unfold findStringSubmatch
      rw [hmac, huuid, hself]
  · -- p = dnsScheme
    rw [show dnsScheme.data = ['d', 'n', 's'] from rfl] at h
    cases sch with
    | nil => simp at h
    | cons c0 s0 =>
    cases s0 with
    | nil => simp at h
    | cons c1 s1 =>
    cases s1 with
    | nil => simp at h
    | cons c2 s2 =>
    cases s2 with
    | cons c3 s3 => simp at h
    | nil =>
      simp only [List.map_cons, List.map_nil, List.cons.injEq, and_true] at h
      obtain ⟨h0, h1, h2⟩ := h
      have hmac : stripSchemeColon macScheme ([c0, c1, c2] ++ ':' :: rest) = none := by
        apply stripSchemeColon_none_of_take
        show List.map asciiLower [c0, c1, c2] ≠ "mac".data
        simp only [List.map_cons, List.map_nil, h0, h1, h2]
        decide
      have huuid : stripSchemeColon uuidScheme ([c0, c1, c2] ++ ':' :: rest) = none := by
        apply stripSchemeColon_none_of_take
        show List.map asciiLower [c0, c1, c2, ':'] ≠ "uuid".data
        simp only [List.map_cons, List.map_nil, h0, h1, h2]
        decide
      have hevent : stripSchemeColon eventScheme ([c0, c1, c2] ++ ':' :: rest) = none := by
        apply stripSchemeColon_none_of_take
        show List.map asciiLower (c0 :: c1 :: c2 :: ':' :: rest.take 1) ≠ "event".data
        simp [h0]
      unfold findStringSubmatch
      rw [hmac, huuid, hevent, hself]
  · -- p = serialScheme
    rw [show serialScheme.data = ['s', 'e', 'r', 'i', 'a', 'l'] from rfl] at h
    cases sch with
    | nil => simp at h
    | cons c0 s0 =>
    cases s0 with
    | nil => simp at h
    | cons c1 s1 =>
    cases s1 with
    | nil => simp at h
    | cons c2 s2 =>
    cases s2 with
    | nil => simp at h
    | cons c3 s3 =>
    cases s3 with
    | nil => simp at h
    | cons c4 s4 =>
    cases s4 with
    | nil => simp at h
    | cons c5 s5 =>
    cases s5 with
    | cons c6 s6 => simp at h
    | nil =>
      simp only [List.map_cons, List.map_nil, List.cons.injEq, and_true] at h
      obtain ⟨h0, h1, h2, h3, h4, h5⟩ := h
      have hmac : stripSchemeColon macScheme
          ([c0, c1, c2, c3, c4, c5] ++ ':' :: rest) = none := by
        apply stripSchemeColon_none_of_head
        show c3 ≠ ':'
        intro hc
        rw [hc] at h3
        exact absurd h3 (by decide)
      have huuid : stripSchemeColon uuidScheme
          ([c0, c1, c2, c3, c4, c5] ++ ':' :: rest) = none := by
        apply stripSchemeColon_none_of_head
        show c4 ≠ ':'
        intro hc
        rw [hc] at h4
        exact absurd h4 (by decide)
      have hevent : stripSchemeColon eventScheme
          ([c0, c1, c2, c3, c4, c5] ++ ':' :: rest) = none := by
        apply stripSchemeColon_none_of_head
        show c5 ≠ ':'
        intro hc
        rw [hc] at h5
        exact absurd h5 (by decide)
      have hdns : stripSchemeColon dnsScheme
          ([c0, c1, c2, c3, c4, c5] ++ ':' :: rest) = none := by
        apply stripSchemeColon_none_of_head
        show c3 ≠ ':'
        intro hc
        rw [hc] at h3
        exact absurd h3 (by decide)
      unfold findStringSubmatch
      rw [hmac, huuid, hevent, hdns, hself]

/-- `takeWhile` keeps a whole list all of whose elements satisfy the
predicate. -/
lemma takeWhile_all {p : Char → Bool} (l : List Char) (h : ∀ c ∈ l, p c) :
    l.takeWhile p = l := by
  induction l with
  | nil => rfl
  | cons a t ih =>
    rw [List.takeWhile_cons, if_pos (h a (by simp))]
    rw [ih fun c hc => h c (by simp [hc])]

/-- An authority of hex digits and delimiters only contains no invalid
character. -/
lemma filter_invalid_eq_nil (a : List Char) (hall : ∀ c ∈ a, isHexDigit c ∨ isMacDelim c) :
    a.filter isInvalidMacChar = [] := by
  rw [List.filter_eq_nil_iff]
  intro c hc
  rcases hall c hc with hx | hx
  · simp [isInvalidMacChar, hx]
  · simp [isInvalidMacChar, hx]

/-- A MAC locator built from a case-variant scheme and an authority of hex
digits and delimiters matches with that authority captured whole. -/
lemma findStringSubmatch_mac (sch a : List Char)
    (hs : sch.map asciiLower = macScheme.data) (hsl : '/' ∉ a) :
    findStringSubmatch (sch ++ ':' :: a) = some (sch, a) := by
  rw [findStringSubmatch_append macScheme (by simp [schemes]) sch a hs]
  rw [takeWhile_all a fun c hc => by
    simp only [bne_iff_ne, ne_eq]
    intro hcc
    rw [hcc] at hc
    exact hsl hc]

/-- A well-formed MAC authority — only hex digits and delimiters, exactly
twelve hex digits — passes `validateLocator` regardless of the letter case of
the scheme or of the digits and of where delimiters sit. -/
lemma validateLocator_mac_valid_twelve (uuidParse : String → Option String)
    (sch a : List Char) (hs : sch.map asciiLower = macScheme.data) (hne : a ≠ [])
    (hsl : '/' ∉ a) (hall : ∀ c ∈ a, isHexDigit c ∨ isMacDelim c)
    (hcount : (a.filter isHexDigit).length = macLength) :
    validateLocator uuidParse (String.mk (sch ++ ':' :: a)) = none := by
  rw [validateLocator_mac_spec uuidParse (String.mk (sch ++ ':' :: a)) sch a
    (findStringSubmatch_mac sch a hs hsl) hs hne]
  rw [filter_invalid_eq_nil a hall]
  show (if (a.filter isHexDigit).length ≠ macLength then _ else _) = _
  rw [if_neg (by simp [hcount])]

/-- Claim C8: for MAC locator strings the result of `validateLocator` is
invariant under changing the letter case of any character and under inserting
or removing the delimiter characters, as long as the hex-digit count stays at
12 (all such locators pass, so any two have equal results); an authority of
valid characters whose hex-digit count is not 12 fails with
`InvalidMacLength`, and an authority containing a character that is neither a
hex digit nor a delimiter fails. -/
theorem validateLocator_mac_invariance (uuidParse : String → Option String)
    (sch a : List Char) (hs : sch.map asciiLower = macScheme.data) (hne : a ≠ [])
    (hsl : '/' ∉ a) :
    ((∀ c ∈ a, isHexDigit c ∨ isMacDelim c) → (a.filter isHexDigit).length = macLength →
        validateLocator uuidParse (String.mk (sch ++ ':' :: a)) = none) ∧
      ((∀ c ∈ a, isHexDigit c ∨ isMacDelim c) → (a.filter isHexDigit).length ≠ macLength →
        validateLocator uuidParse (String.mk (sch ++ ':' :: a)) =
          some LocatorError.invalidMacLength) ∧
      ((∃ c ∈ a, isInvalidMacChar c) →
        validateLocator uuidParse (String.mk (sch ++ ':' :: a)) ≠ none) ∧
      ∀ sch2 a2, sch2.map asciiLower = macScheme.data → a2 ≠ [] → '/' ∉ a2 →
        (∀ c ∈ a, isHexDigit c ∨ isMacDelim c) →
        (∀ c ∈ a2, isHexDigit c ∨ isMacDelim c) →
        (a.filter isHexDigit).length = macLength →
        (a2.filter isHexDigit).length = macLength →
        validateLocator uuidParse (String.mk (sch ++ ':' :: a)) =
          validateLocator uuidParse (String.mk (sch2 ++ ':' :: a2)) := by
  refine ⟨validateLocator_mac_valid_twelve uuidParse sch a hs hne hsl, ?_, ?_, ?_⟩
  · intro hall hcount
    rw [validateLocator_mac_spec uuidParse (String.mk (sch ++ ':' :: a)) sch a
      (findStringSubmatch_mac sch a hs hsl) hs hne]
    rw [filter_invalid_eq_nil a hall]
    show (if (a.filter isHexDigit).length ≠ macLength then _ else _) = _
    rw [if_pos hcount]
  · rintro ⟨c, hc, hinv⟩
    rw [validateLocator_mac_spec uuidParse (String.mk (sch ++ ':' :: a)) sch a
      (findStringSubmatch_mac sch a hs hsl) hs hne]
    have hmem : c ∈ a.filter isInvalidMacChar := List.mem_filter.mpr ⟨hc, hinv⟩
    have hnn : a.filter isInvalidMacChar ≠ [] := by
      intro hnil
      rw [hnil] at hmem
      cases hmem
    cases hlast : (a.filter isInvalidMacChar).getLast? with
    | none => exact absurd (List.getLast?_eq_none_iff.mp hlast) hnn
    | some c2 => simp
  · intro sch2 a2 hs2 hne2 hsl2 hall hall2 hcount hcount2
    rw [validateLocator_mac_valid_twelve uuidParse sch a hs hne hsl hall hcount,
      validateLocator_mac_valid_twelve uuidParse sch2 a2 hs2 hne2 hsl2 hall2 hcount2]

/-- Witness for claim C8: the mixed-case, delimiter-interspersed authority
`AA-BB-cc.dd:ee:11` under the mixed-case scheme `MaC` passes validation. -/
theorem validateLocator_mac_invariance_witness :
    validateLocator (fun _ => none) (String.mk ("MaC".data ++ ':' :: "AA-BB-cc.dd:ee:11".data)) =
      none := by
  exact (validateLocator_mac_invariance (fun _ => none) "MaC".data "AA-BB-cc.dd:ee:11".data
    (by decide) (by decide) (by decide)).1 (by decide) (by decide)

/-- Claim C9: a string consisting of a valid scheme (in any letter case), a
colon, and then immediately a slash fails with `EmptyAuthority`, not
`InvalidLocatorPattern`: the optional authority group excludes `/`, so the
grammar matches with an empty captured authority. -/
theorem scheme_slash_empty_authority (uuidParse : String → Option String) (p : String)
    (hp : p ∈ schemes) (sch rest : List Char) (hs : sch.map asciiLower = p.data) :
    validateLocator uuidParse (String.mk (sch ++ ':' :: '/' :: rest)) =
      some LocatorError.emptyAuthority := by
  unfold validateLocator
  rw [show (String.mk (sch ++ ':' :: '/' :: rest)).data = sch ++ ':' :: '/' :: rest from rfl,
    findStringSubmatch_append p hp sch ('/' :: rest) hs]
  rfl

/-- Witness for claim C9 at the concrete string `"mac:/foo"`. -/
theorem scheme_slash_empty_authority_witness :
    validateLocator (fun _ => none) (String.mk ("mac".data ++ ':' :: '/' :: "foo".data)) =
      some LocatorError.emptyAuthority := by
  exact scheme_slash_empty_authority (fun _ => none) macScheme (by simp [schemes])
    "mac".data "foo".data (by decide)

end Wrp
